import Mathlib

/-!
Shallow embedding of `pydy/system.py` (the `System` class managing
validation, normalization, lazy compilation and integration of a
mechanical system whose equations come from a KanesMethod object).

Modelling conventions:
* A sympy `Symbol`/dynamicsymbol is an opaque identifier compared by
  equality; we use `Nat`.
* A Python `dict` is represented by its `items()` list, a
  `List (key × value)`.  `dict(xs + ys)` built from a concatenation of
  items lists lets the rightmost binding win on a key collision, so the
  lookup function `dictLookup` below is right-biased.
* Python floats that the class itself manipulates (defaults 1.0 and 0.0)
  are represented by `ℚ`.
* A raised exception is an `Except`/`Option PyError` result; the code
  under test only raises `ValueError`, and we distinguish the distinct
  `ValueError` sites by constructor.
* The external collaborators (sympy's KanesMethod, the codegen backend,
  the scipy integrator) are out of scope for the repository; they enter
  only through the narrow read-only interface `KanesMethodModel`
  (coordinate list, speed list, and the symbol-classification results of
  `_find_othersymbols` / `_find_dynamicsymbols`), through a fresh
  function object returned by the codegen backend (modelled by an id
  drawn from a counter), and through the recorded argument bundle handed
  to the pluggable `ode_solver`.
-/

namespace PydySystem

/-- Opaque symbol identifier (sympy Symbol / dynamicsymbol), compared by
equality. -/
abbrev Sym := Nat

/-- The process-wide time symbol: `symbols('t')` in the source looks the
symbol named t up by name, yielding one fixed symbol. -/
def tSym : Sym := 0

/-- The distinct `ValueError` sites raised by `system.py`, one constructor
per raise site, plus the `KeyError` a dict subscript can raise. -/
inductive PyError where
  /-- raised by `_check_constants`: Symbol k is not a constant. -/
  | invalidConstant (s : Sym)
  /-- raised by `_assert_is_specified_symbol`: Symbol k is not a
  specified symbol. -/
  | invalidSpecified (s : Sym)
  /-- raised by `_assert_symbol_appears_multiple_times`: Symbol k appears
  more than once. -/
  | duplicateSpecified (s : Sym)
  /-- raised by `_check_initial_conditions`: Symbol k is not a state. -/
  | invalidState (s : Sym)
  /-- raised by the `ode_solver` setter: the value is not a function. -/
  | notCallable
  /-- raised by `list.remove` inside `_Kane_constant_symbols` when the
  time symbol is absent from the constants list. -/
  | timeSymbolMissing
  /-- raised by a dict subscript on a missing key. -/
  | keyError
deriving DecidableEq, Repr

/-- A key of the specifieds dict: a single specified symbol or a tuple of
specified symbols. -/
inductive SpecKey where
  | scalar (s : Sym)
  | tuple (ss : List Sym)
deriving DecidableEq, Repr

/-- A value of the specifieds dict: a scalar, a sequence of scalars, or a
function of (state, time); function objects are opaque to the `System`
class (it never calls them), so they are modelled by an opaque handle. -/
inductive SpecVal where
  | num (q : ℚ)
  | arr (qs : List ℚ)
  | func (handle : Nat)
deriving DecidableEq, Repr

/-- The symbols a `SpecKey` references: the scalar itself, or the members
of the tuple. -/
def SpecKey.syms : SpecKey → List Sym
  | .scalar s => [s]
  | .tuple ss => ss

/-- Items list of the constants dict (and of the initial-conditions
dict): symbol to float. -/
abbrev ConstDict := List (Sym × ℚ)

/-- Items list of the initial-conditions dict. -/
abbrev ICDict := List (Sym × ℚ)

/-- Items list of the specifieds dict. -/
abbrev SpecDict := List (SpecKey × SpecVal)

/-- Lookup in a dict built by `dict(items)`: on a repeated key the
rightmost binding wins, as in Python. -/
def dictLookup {α β : Type} [DecidableEq α] (k : α) : List (α × β) → Option β
  | [] => none
  | (a, b) :: rest =>
    match dictLookup k rest with
    | some v => some v
    | none => if a = k then some b else none

/-- Python's `k in d` on a dict: key membership. -/
def hasKey {α β : Type} [DecidableEq α] (k : α) : List (α × β) → Bool
  | [] => false
  | (a, _) :: rest => a = k || hasKey k rest

/-- Key list of a dict (Python `d.keys()`). -/
def dictKeys {α β : Type} (d : List (α × β)) : List α :=
  d.map Prod.fst

/-- Narrow read-only interface of the external KanesMethod object: the
coordinate list q, the speed list u, and the two symbol-classification
results the constructor consumes (`_find_othersymbols` for non-dynamic
symbols, `_find_dynamicsymbols` for undefined dynamic symbols, both
applied to the full mass matrix and forcing vector). -/
structure KanesMethodModel where
  q : List Sym
  u : List Sym
  otherSymbols : List Sym
  dynSymbols : List Sym
deriving DecidableEq, Repr

/-- A function object compiled by the external codegen backend
`pydy.codegen.code.generate_ode_function`: each backend call returns a
new function object, modelled by a fresh id, tagged with the generator
choice it was compiled with. -/
structure OdeFunc where
  id : Nat
  generator : String
deriving DecidableEq, Repr

/-- A candidate `ode_solver` value: an object identity plus whether it
has a `__call__` attribute. -/
structure OdeSolver where
  id : Nat
  isCallable : Bool
deriving DecidableEq, Repr

/-- The attribute state of a `System` instance. -/
structure SystemState where
  eom : KanesMethodModel
  constantsSymbols : List Sym
  specifiedsSymbols : List Sym
  constants : ConstDict
  specifieds : SpecDict
  initialConditions : ICDict
  odeSolver : OdeSolver
  evaluateOdeFunction : Option OdeFunc
deriving DecidableEq, Repr

/-- Property `coordinates`: `self.eom_method._q`. -/
def coordinates (st : SystemState) : List Sym :=
  st.eom.q

/-- Property `speeds`: `self.eom_method._u`. -/
def speeds (st : SystemState) : List Sym :=
  st.eom.u

/-- Property `states`: `self.coordinates + self.speeds`; on the lists the
external model exposes, `+` is concatenation. -/
def states (st : SystemState) : List Sym :=
  coordinates st ++ speeds st

/-- Method `_check_constants`: for each key of the candidate dict, raise
ValueError if it is not in `self.constants_symbols`. -/
def check_constants (constantsSymbols : List Sym) : List Sym → Except PyError Unit
  | [] => .ok ()
  | k :: rest =>
    if k ∈ constantsSymbols then check_constants constantsSymbols rest
    else .error (.invalidConstant k)

/-- Method `_check_initial_conditions`: for each key of the candidate
dict, raise ValueError if it is not in `self.states`. -/
def check_initial_conditions (stateSymbols : List Sym) : List Sym → Except PyError Unit
  | [] => .ok ()
  | k :: rest =>
    if k ∈ stateSymbols then check_initial_conditions stateSymbols rest
    else .error (.invalidState k)

/-- Method `_assert_is_specified_symbol`: raise if the symbol is not in
the specified-symbol list. -/
def assert_is_specified_symbol (s : Sym) (all_symbols : List Sym) : Except PyError Unit :=
  if s ∈ all_symbols then .ok () else .error (.invalidSpecified s)

/-- Method `_assert_symbol_appears_multiple_times`: raise if the symbol
was already seen. -/
def assert_symbol_appears_multiple_times (s : Sym) (symbols_so_far : List Sym) :
    Except PyError Unit :=
  if s ∈ symbols_so_far then .error (.duplicateSpecified s) else .ok ()

/-- The first inner loop of `_check_specifieds` on a tuple key: every
member must be a specified symbol. -/
def check_all_specified (symbols : List Sym) : List Sym → Except PyError Unit
  | [] => .ok ()
  | s :: rest => do
    assert_is_specified_symbol s symbols
    check_all_specified symbols rest

/-- The second inner loop of `_check_specifieds` on a tuple key: each
member is checked against `symbols_so_far` and then appended to it;
returns the grown `symbols_so_far`. -/
def append_dup_checked (symbols_so_far : List Sym) : List Sym → Except PyError (List Sym)
  | [] => .ok symbols_so_far
  | s :: rest => do
    assert_symbol_appears_multiple_times s symbols_so_far
    append_dup_checked (symbols_so_far ++ [s]) rest

/-- The body of `_check_specifieds`: iterate over the dict items carrying
`symbols_so_far`; each key is first checked for membership in the
specified-symbol list, then for duplicates against all symbols seen so
far (tuple keys flattened member by member). -/
def check_specifieds_from (symbols : List Sym) (symbols_so_far : List Sym) :
    SpecDict → Except PyError Unit
  | [] => .ok ()
  | (k, _) :: rest =>
    match k with
    | .scalar s => do
      assert_is_specified_symbol s symbols
      assert_symbol_appears_multiple_times s symbols_so_far
      check_specifieds_from symbols (symbols_so_far ++ [s]) rest
    | .tuple ks => do
      check_all_specified symbols ks
      let sofar ← append_dup_checked symbols_so_far ks
      check_specifieds_from symbols sofar rest

/-- Method `_check_specifieds`: starts with an empty `symbols_so_far`. -/
def check_specifieds (symbols : List Sym) (specifieds : SpecDict) : Except PyError Unit :=
  check_specifieds_from symbols [] specifieds

/-- Method `_symbol_is_in_specifieds_dict`: the symbol is referenced if
it equals a scalar key or is a member of a tuple key. -/
def symbol_is_in_specifieds_dict (s : Sym) : SpecDict → Bool
  | [] => false
  | (k, _) :: rest =>
    (match k with
     | .scalar a => decide (a = s)
     | .tuple ks => decide (s ∈ ks)) || symbol_is_in_specifieds_dict s rest

/-- Method `_constants_padded_with_defaults`:
`dict(self.constants.items() + comprehension.items())` where the
comprehension maps each constant symbol not already a key to 1.0. -/
def constants_padded_with_defaults (st : SystemState) : ConstDict :=
  st.constants ++
    (st.constantsSymbols.filter (fun s => ! hasKey s st.constants)).map (fun s => (s, (1 : ℚ)))

/-- Method `_specifieds_padded_with_defaults`: keeps the stored items and
appends `s : 0.0` for each specified symbol not referenced by any key. -/
def specifieds_padded_with_defaults (st : SystemState) : SpecDict :=
  st.specifieds ++
    (st.specifiedsSymbols.filter (fun s => ! symbol_is_in_specifieds_dict s st.specifieds)).map
      (fun s => (SpecKey.scalar s, SpecVal.num 0))

/-- Method `_initial_conditions_padded_with_defaults`: keeps the stored
items and appends `s : 0.0` for each state symbol not already a key. -/
def initial_conditions_padded_with_defaults (st : SystemState) : ICDict :=
  st.initialConditions ++
    ((states st).filter (fun s => ! hasKey s st.initialConditions)).map (fun s => (s, (0 : ℚ)))

/-- The setter of the `constants` property: run `_check_constants` on the
candidate dict, then store it.  An exception leaves the instance
unchanged (the assignment is never reached). -/
def constants_setter (st : SystemState) (c : ConstDict) : SystemState × Option PyError :=
  match check_constants st.constantsSymbols (dictKeys c) with
  | .error e => (st, some e)
  | .ok () => ({ st with constants := c }, none)

/-- The setter of the `specifieds` property: run `_check_specifieds` on
the candidate dict, then store it. -/
def specifieds_setter (st : SystemState) (d : SpecDict) : SystemState × Option PyError :=
  match check_specifieds st.specifiedsSymbols d with
  | .error e => (st, some e)
  | .ok () => ({ st with specifieds := d }, none)

/-- The setter of the `initial_conditions` property: run
`_check_initial_conditions` on the candidate dict, then store it. -/
def initial_conditions_setter (st : SystemState) (ic : ICDict) : SystemState × Option PyError :=
  match check_initial_conditions (states st) (dictKeys ic) with
  | .error e => (st, some e)
  | .ok () => ({ st with initialConditions := ic }, none)

/-- The setter of the `ode_solver` property: raise unless the value has a
`__call__` attribute, otherwise store it. -/
def ode_solver_setter (st : SystemState) (f : OdeSolver) : SystemState × Option PyError :=
  if f.isCallable then ({ st with odeSolver := f }, none)
  else (st, some .notCallable)

/-- Python's `list.remove(x)`: delete the first occurrence of x, raising
`ValueError` when x is absent. -/
def list_remove (x : Sym) : List Sym → Except PyError (List Sym)
  | [] => .error .timeSymbolMissing
  | a :: rest =>
    if a = x then .ok rest
    else (list_remove x rest).map (fun l => a :: l)

/-- Method `_Kane_constant_symbols`: take the external classification of
non-dynamic symbols and remove the time symbol from it with
`list.remove`, which raises when `t` is absent. -/
def Kane_constant_symbols (eom : KanesMethodModel) : Except PyError (List Sym) :=
  list_remove tSym eom.otherSymbols

/-- Method `_Kane_undefined_dynamicsymbols`: the external classification
of dynamic symbols not defined by the equations of motion. -/
def Kane_undefined_dynamicsymbols (eom : KanesMethodModel) : List Sym :=
  eom.dynSymbols

/-- Lift a setter result into `Except` for sequencing inside the
constructor and elsewhere. -/
def setterExcept (r : SystemState × Option PyError) : Except PyError SystemState :=
  match r with
  | (_, some e) => .error e
  | (st, none) => .ok st

/-- Constructor `System.__init__`: stores the eom method, computes the
two symbol lists, then assigns `constants`, `specifieds`, `ode_solver`
and `initial_conditions` through their property setters (in that order),
and finally clears `_evaluate_ode_function`.  Attributes not yet
assigned are given placeholder values that every successful run
overwrites. -/
def SystemInit (eom : KanesMethodModel) (constants : ConstDict) (specifieds : SpecDict)
    (solver : OdeSolver) (initial_conditions : ICDict) : Except PyError SystemState := do
  let csyms ← Kane_constant_symbols eom
  let ssyms := Kane_undefined_dynamicsymbols eom
  let st0 : SystemState :=
    { eom := eom
      constantsSymbols := csyms
      specifiedsSymbols := ssyms
      constants := []
      specifieds := []
      initialConditions := []
      odeSolver := ⟨0, true⟩
      evaluateOdeFunction := none }
  let st1 ← setterExcept (constants_setter st0 constants)
  let st2 ← setterExcept (specifieds_setter st1 specifieds)
  let st3 ← setterExcept (ode_solver_setter st2 solver)
  let st4 ← setterExcept (initial_conditions_setter st3 initial_conditions)
  return { st4 with evaluateOdeFunction := none }

/-- Method `generate_ode_function`: calls the external codegen backend on
the symbolic inputs and the chosen generator, stores the resulting fresh
function object in `_evaluate_ode_function` and returns it.  The backend
returns a new function object on every call; `counter` supplies the
fresh object identity and is incremented. -/
def generate_ode_function (st : SystemState) (generator : String) (counter : Nat) :
    SystemState × OdeFunc × Nat :=
  let f : OdeFunc := { id := counter, generator := generator }
  ({ st with evaluateOdeFunction := some f }, f, counter + 1)

/-- The default generator choice of `generate_ode_function`. -/
def defaultGenerator : String := "lambdify"

/-- The list comprehension building the initial state:
`[init_conds_dict[k] for k in self.states]`; a dict subscript on a
missing key raises `KeyError`. -/
def lookup_all (d : ICDict) : List Sym → Except PyError (List ℚ)
  | [] => .ok []
  | k :: rest =>
    match dictLookup k d with
    | none => .error .keyError
    | some v => (lookup_all d rest).map (fun l => v :: l)

/-- The observable call made to the pluggable `ode_solver` at the end of
`integrate`, together with what `integrate` did on the way: whether it
compiled during this call and with which generator. -/
structure IntegrateCall where
  func : OdeFunc
  x0 : List ℚ
  times : List ℚ
  constantsArg : ConstDict
  specifiedArg : SpecDict
  compiledDuringCall : Bool
  generatorUsed : Option String
deriving DecidableEq, Repr

/-- Method `integrate`: re-run the three validations on the currently
stored dicts, lazily compile the ode function if none is cached (with
the default generator), build the ordered initial state from the padded
initial conditions projected on `states`, and delegate to the
`ode_solver` with the padded constants and specifieds bundled as the
extra argument. -/
def integrate (st : SystemState) (times : List ℚ) (counter : Nat) :
    Except PyError (SystemState × IntegrateCall × Nat) := do
  check_constants st.constantsSymbols (dictKeys st.constants)
  check_specifieds st.specifiedsSymbols st.specifieds
  check_initial_conditions (states st) (dictKeys st.initialConditions)
  let (st1, f, compiled, genUsed, counter1) :=
    match st.evaluateOdeFunction with
    | none =>
      let (st', fNew, c') := generate_ode_function st defaultGenerator counter
      (st', fNew, true, some defaultGenerator, c')
    | some f => (st, f, false, none, counter)
  let init_conds_dict := initial_conditions_padded_with_defaults st1
  let x0 ← lookup_all init_conds_dict (states st1)
  return (st1,
    { func := f
      x0 := x0
      times := times
      constantsArg := constants_padded_with_defaults st1
      specifiedArg := specifieds_padded_with_defaults st1
      compiledDuringCall := compiled
      generatorUsed := genUsed },
    counter1)

/-! Helper lemmas about the dict model. -/

theorem dictLookup_append_of_none {α β : Type} [DecidableEq α] (k : α) (a b : List (α × β))
    (h : dictLookup k b = none) : dictLookup k (a ++ b) = dictLookup k a := by
  induction a with
  | nil => simpa [dictLookup] using h
  | cons x a ih =>
    obtain ⟨x1, x2⟩ := x
    rw [List.cons_append]
    simp only [dictLookup]
    rw [ih]

theorem dictLookup_append_of_some {α β : Type} [DecidableEq α] (k : α) (a b : List (α × β))
    (v : β) (h : dictLookup k b = some v) : dictLookup k (a ++ b) = some v := by
  induction a with
  | nil => simpa [dictLookup] using h
  | cons x a ih =>
    obtain ⟨x1, x2⟩ := x
    rw [List.cons_append]
    simp only [dictLookup]
    rw [ih]

theorem dictLookup_map_fn_none {α β γ : Type} [DecidableEq α] (k : α) (f : γ → α) (c : β)
    (l : List γ) (h : ∀ s ∈ l, f s ≠ k) :
    dictLookup k (l.map (fun s => (f s, c))) = none := by
  induction l with
  | nil => rfl
  | cons x l ih =>
    have hx : f x ≠ k := h x (by simp)
    have hrest : ∀ s ∈ l, f s ≠ k := fun s hs => h s (by simp [hs])
    simp [dictLookup, ih hrest, hx]

theorem dictLookup_map_fn_some {α β γ : Type} [DecidableEq α] (k : α) (f : γ → α) (c : β)
    (l : List γ) (h : ∃ s ∈ l, f s = k) :
    dictLookup k (l.map (fun s => (f s, c))) = some c := by
  induction l with
  | nil => simp at h
  | cons x l ih =>
    by_cases hl : ∃ s ∈ l, f s = k
    · simp [dictLookup, ih hl]
    · have hx : f x = k := by
        rcases h with ⟨s, hs, hfs⟩
        rcases List.mem_cons.mp hs with rfl | hmem
        · exact hfs
        · exact absurd ⟨s, hmem, hfs⟩ hl
      have : dictLookup k (l.map (fun s => (f s, c))) = none := by
        apply dictLookup_map_fn_none
        intro s hs hfs
        exact hl ⟨s, hs, hfs⟩
      simp [dictLookup, this, hx]

theorem hasKey_iff_mem_dictKeys {α β : Type} [DecidableEq α] (k : α) (d : List (α × β)) :
    hasKey k d = true ↔ k ∈ dictKeys d := by
  induction d with
  | nil => simp [hasKey, dictKeys]
  | cons x d ih =>
    obtain ⟨x1, x2⟩ := x
    simp [hasKey, dictKeys, ih]
    constructor
    · rintro (rfl | h)
      · exact Or.inl rfl
      · exact Or.inr (by simpa [dictKeys] using h)
    · rintro (rfl | h)
      · exact Or.inl rfl
      · exact Or.inr (by simpa [dictKeys] using h)

theorem dictLookup_eq_none_iff {α β : Type} [DecidableEq α] (k : α) (d : List (α × β)) :
    dictLookup k d = none ↔ k ∉ dictKeys d := by
  induction d with
  | nil => simp [dictLookup, dictKeys]
  | cons x d ih =>
    obtain ⟨x1, x2⟩ := x
    simp only [dictLookup, dictKeys, List.map_cons, List.mem_cons]
    cases hrest : dictLookup k d with
    | some v =>
      have hk : k ∈ dictKeys d := by
        by_contra hkn
        simp [ih.mpr hkn] at hrest
      simp only [dictKeys] at hk
      simp [hk]
    | none =>
      have hk : k ∉ dictKeys d := ih.mp hrest
      simp only [dictKeys] at hk
      by_cases hx : x1 = k
      · subst hx
        simp [hk]
      · simp [hx, hk]
        exact fun h => hx h.symm

theorem mem_dictKeys_of_dictLookup {α β : Type} [DecidableEq α] (k : α) (d : List (α × β))
    (v : β) (h : dictLookup k d = some v) : k ∈ dictKeys d := by
  by_contra hk
  rw [← dictLookup_eq_none_iff] at hk
  simp [hk] at h

theorem dictLookup_isSome_of_mem {α β : Type} [DecidableEq α] (k : α) (d : List (α × β))
    (h : k ∈ dictKeys d) : ∃ v, dictLookup k d = some v := by
  cases hl : dictLookup k d with
  | some v => exact ⟨v, rfl⟩
  | none => exact absurd h ((dictLookup_eq_none_iff k d).mp hl)

theorem dictKeys_append {α β : Type} (a b : List (α × β)) :
    dictKeys (a ++ b) = dictKeys a ++ dictKeys b := by
  simp [dictKeys]

theorem dictKeys_map_fn {α β γ : Type} (f : γ → α) (c : β) (l : List γ) :
    dictKeys (l.map (fun s => (f s, c))) = l.map f := by
  simp [dictKeys, Function.comp]

/-- C2: every constant symbol appears in the padded constants dict, with
the explicitly stored value when the symbol is a key of the stored
mapping and with the default 1.0 otherwise. -/
theorem constants_padded_with_defaults_spec (st : SystemState)
    (hvalid : ∀ k ∈ dictKeys st.constants, k ∈ st.constantsSymbols) :
    (∀ s, s ∈ dictKeys (constants_padded_with_defaults st) ↔ s ∈ st.constantsSymbols) ∧
    (∀ s v, dictLookup s st.constants = some v →
      dictLookup s (constants_padded_with_defaults st) = some v) ∧
    (∀ s, s ∈ st.constantsSymbols → hasKey s st.constants = false →
      dictLookup s (constants_padded_with_defaults st) = some 1) := by
  refine ⟨?_, ?_, ?_⟩
  · intro s
    simp only [constants_padded_with_defaults, dictKeys_append, dictKeys_map_fn,
      List.mem_append, List.mem_map, List.mem_filter]
    constructor
    · rintro (h | ⟨a, ⟨ha, _⟩, rfl⟩)
      · exact hvalid s h
      · exact ha
    · intro hs
      cases hk : hasKey s st.constants with
      | true => exact Or.inl ((hasKey_iff_mem_dictKeys s st.constants).mp hk)
      | false => exact Or.inr ⟨s, ⟨hs, by simp [hk]⟩, rfl⟩
  · intro s v h
    have hnone : dictLookup s ((st.constantsSymbols.filter
        (fun a => ! hasKey a st.constants)).map (fun a => (a, (1 : ℚ)))) = none := by
      apply dictLookup_map_fn_none
      intro a ha heq
      rcases List.mem_filter.mp ha with ⟨_, hnk⟩
      subst heq
      have hmem : hasKey a st.constants = true :=
        (hasKey_iff_mem_dictKeys a st.constants).mpr (mem_dictKeys_of_dictLookup a _ v h)
      simp [hmem] at hnk
    rw [constants_padded_with_defaults, dictLookup_append_of_none _ _ _ hnone]
    exact h
  · intro s hs hk
    rw [constants_padded_with_defaults]
    apply dictLookup_append_of_some
    apply dictLookup_map_fn_some
    exact ⟨s, List.mem_filter.mpr ⟨hs, by simp [hk]⟩, rfl⟩

theorem symbol_is_in_specifieds_dict_iff (s : Sym) (d : SpecDict) :
    symbol_is_in_specifieds_dict s d = true ↔ ∃ k ∈ dictKeys d, s ∈ SpecKey.syms k := by
  induction d with
  | nil => simp [symbol_is_in_specifieds_dict, dictKeys]
  | cons x d ih =>
    obtain ⟨k0, v0⟩ := x
    cases k0 with
    | scalar a =>
      simp only [symbol_is_in_specifieds_dict, Bool.or_eq_true, decide_eq_true_eq, ih,
        dictKeys, List.map_cons, List.mem_cons]
      constructor
      · rintro (heq | ⟨k, hk, hs⟩)
        · exact ⟨SpecKey.scalar a, Or.inl rfl, by simp [SpecKey.syms, heq]⟩
        · exact ⟨k, Or.inr hk, hs⟩
      · rintro ⟨k, (rfl | hk), hs⟩
        · simp [SpecKey.syms] at hs
          exact Or.inl hs.symm
        · exact Or.inr ⟨k, hk, hs⟩
    | tuple ks =>
      simp only [symbol_is_in_specifieds_dict, Bool.or_eq_true, decide_eq_true_eq, ih,
        dictKeys, List.map_cons, List.mem_cons]
      constructor
      · rintro (h | ⟨k, hk, hs⟩)
        · exact ⟨SpecKey.tuple ks, Or.inl rfl, by simpa [SpecKey.syms] using h⟩
        · exact ⟨k, Or.inr hk, hs⟩
      · rintro ⟨k, (rfl | hk), hs⟩
        · exact Or.inl (by simpa [SpecKey.syms] using hs)
        · exact Or.inr ⟨k, hk, hs⟩

theorem except_bind_error {ε α β : Type} (e : ε) (f : α → Except ε β) :
    (Except.error e >>= f) = Except.error e := rfl

theorem except_bind_ok {ε α β : Type} (a : α) (f : α → Except ε β) :
    (Except.ok a >>= f) = f a := rfl

theorem except_map_error {ε α β : Type} (e : ε) (f : α → β) :
    (f <$> (Except.error e : Except ε α)) = Except.error e := rfl

theorem except_map_ok {ε α β : Type} (a : α) (f : α → β) :
    (f <$> (Except.ok a : Except ε α)) = Except.ok (f a) := rfl

theorem ic_padding_preserves (st : SystemState) (k : Sym) (v : ℚ)
    (h : dictLookup k st.initialConditions = some v) :
    dictLookup k (initial_conditions_padded_with_defaults st) = some v := by
  have hnone : dictLookup k (((states st).filter
      (fun s => ! hasKey s st.initialConditions)).map (fun s => (s, (0 : ℚ)))) = none := by
    apply dictLookup_map_fn_none
    intro a ha heq
    rcases List.mem_filter.mp ha with ⟨_, hnk⟩
    subst heq
    have hmem : hasKey a st.initialConditions = true :=
      (hasKey_iff_mem_dictKeys a st.initialConditions).mpr
        (mem_dictKeys_of_dictLookup a _ v h)
    simp [hmem] at hnk
  rw [initial_conditions_padded_with_defaults, dictLookup_append_of_none _ _ _ hnone]
  exact h

theorem ic_padding_default (st : SystemState) (s : Sym) (hs : s ∈ states st)
    (hk : hasKey s st.initialConditions = false) :
    dictLookup s (initial_conditions_padded_with_defaults st) = some 0 := by
  rw [initial_conditions_padded_with_defaults]
  apply dictLookup_append_of_some
  apply dictLookup_map_fn_some
  exact ⟨s, List.mem_filter.mpr ⟨hs, by simp [hk]⟩, rfl⟩

theorem padded_ic_covers_states (st : SystemState) (s : Sym) (hs : s ∈ states st) :
    ∃ v, dictLookup s (initial_conditions_padded_with_defaults st) = some v := by
  cases hk : hasKey s st.initialConditions with
  | true =>
    rcases dictLookup_isSome_of_mem s st.initialConditions
      ((hasKey_iff_mem_dictKeys s st.initialConditions).mp hk) with ⟨v, hv⟩
    exact ⟨v, ic_padding_preserves st s v hv⟩
  | false => exact ⟨0, ic_padding_default st s hs hk⟩

theorem lookup_all_ok_of_covered (d : ICDict) (l : List Sym)
    (h : ∀ k ∈ l, ∃ v, dictLookup k d = some v) :
    ∃ r, lookup_all d l = .ok r ∧ r.length = l.length ∧
      ∀ i, ∀ hi : i < l.length, r.get? i = dictLookup (l.get ⟨i, hi⟩) d := by
  induction l with
  | nil => exact ⟨[], rfl, rfl, fun i hi => absurd hi (by simp)⟩
  | cons k rest ih =>
    rcases h k (by simp) with ⟨v, hv⟩
    rcases ih (fun a ha => h a (by simp [ha])) with ⟨r, hr, hlen, hget⟩
    refine ⟨v :: r, ?_, by simp [hlen], ?_⟩
    · simp [lookup_all, hv, hr, Except.map]
    · intro i hi
      cases i with
      | zero => simpa using hv.symm
      | succ j =>
        have hj : j < rest.length := by simpa using hi
        simpa using hget j hj

theorem lookup_all_total (st : SystemState) :
    ∃ x0, lookup_all (initial_conditions_padded_with_defaults st) (states st) = .ok x0 := by
  rcases lookup_all_ok_of_covered (initial_conditions_padded_with_defaults st) (states st)
    (fun k hk => padded_ic_covers_states st k hk) with ⟨r, hr, _⟩
  exact ⟨r, hr⟩

/-- Structure updates of the cached ode function do not disturb the
configuration fields the padding and state functions read. -/
theorem states_update_ode (st : SystemState) (x : Option OdeFunc) :
    states { st with evaluateOdeFunction := x } = states st := rfl

theorem ic_padding_update_ode (st : SystemState) (x : Option OdeFunc) :
    initial_conditions_padded_with_defaults { st with evaluateOdeFunction := x } =
      initial_conditions_padded_with_defaults st := rfl

theorem integrate_check1_error (st : SystemState) (times : List ℚ) (cnt : Nat) (e : PyError)
    (h : check_constants st.constantsSymbols (dictKeys st.constants) = .error e) :
    integrate st times cnt = .error e := by
  simp [integrate, h, except_bind_error]

theorem integrate_check2_error (st : SystemState) (times : List ℚ) (cnt : Nat) (e : PyError)
    (h1 : check_constants st.constantsSymbols (dictKeys st.constants) = .ok ())
    (h2 : check_specifieds st.specifiedsSymbols st.specifieds = .error e) :
    integrate st times cnt = .error e := by
  simp [integrate, h1, h2, except_bind_error, except_bind_ok]

theorem integrate_check3_error (st : SystemState) (times : List ℚ) (cnt : Nat) (e : PyError)
    (h1 : check_constants st.constantsSymbols (dictKeys st.constants) = .ok ())
    (h2 : check_specifieds st.specifiedsSymbols st.specifieds = .ok ())
    (h3 : check_initial_conditions (states st) (dictKeys st.initialConditions) = .error e) :
    integrate st times cnt = .error e := by
  simp [integrate, h1, h2, h3, except_bind_error, except_bind_ok]

theorem integrate_ok_cached (st : SystemState) (times : List ℚ) (cnt : Nat) (f : OdeFunc)
    (x0 : List ℚ)
    (h1 : check_constants st.constantsSymbols (dictKeys st.constants) = .ok ())
    (h2 : check_specifieds st.specifiedsSymbols st.specifieds = .ok ())
    (h3 : check_initial_conditions (states st) (dictKeys st.initialConditions) = .ok ())
    (hf : st.evaluateOdeFunction = some f)
    (hx : lookup_all (initial_conditions_padded_with_defaults st) (states st) = .ok x0) :
    integrate st times cnt = .ok (st,
      { func := f
        x0 := x0
        times := times
        constantsArg := constants_padded_with_defaults st
        specifiedArg := specifieds_padded_with_defaults st
        compiledDuringCall := false
        generatorUsed := none }, cnt) := by
  simp [integrate, h1, h2, h3, hf, hx, except_bind_ok, except_map_ok]

theorem integrate_ok_uncached (st : SystemState) (times : List ℚ) (cnt : Nat)
    (x0 : List ℚ)
    (h1 : check_constants st.constantsSymbols (dictKeys st.constants) = .ok ())
    (h2 : check_specifieds st.specifiedsSymbols st.specifieds = .ok ())
    (h3 : check_initial_conditions (states st) (dictKeys st.initialConditions) = .ok ())
    (hf : st.evaluateOdeFunction = none)
    (hx : lookup_all (initial_conditions_padded_with_defaults st) (states st) = .ok x0) :
    integrate st times cnt =
      .ok ({ st with evaluateOdeFunction := some (OdeFunc.mk cnt defaultGenerator) },
        { func := OdeFunc.mk cnt defaultGenerator
          x0 := x0
          times := times
          constantsArg := constants_padded_with_defaults st
          specifiedArg := specifieds_padded_with_defaults st
          compiledDuringCall := true
          generatorUsed := some defaultGenerator }, cnt + 1) := by
  simp [integrate, h1, h2, h3, hf, generate_ode_function, except_bind_ok, except_map_ok,
    ic_padding_update_ode, states_update_ode, hx]
  exact ⟨rfl, rfl⟩

/-- C3: padding the specifieds keeps every stored entry (scalar or tuple
key) with its value, adds the default 0.0 exactly for the specified
symbols referenced by no key (a symbol is referenced when it is a scalar
key or a member of a tuple key), and padding the initial conditions
keeps stored entries and maps every remaining state symbol to 0.0. -/
theorem specifieds_and_initial_conditions_padding_spec (st : SystemState)
    (hvalidIC : ∀ k ∈ dictKeys st.initialConditions, k ∈ states st) :
    (∀ k v, dictLookup k st.specifieds = some v →
      dictLookup k (specifieds_padded_with_defaults st) = some v) ∧
    (∀ s, s ∈ st.specifiedsSymbols → symbol_is_in_specifieds_dict s st.specifieds = false →
      dictLookup (SpecKey.scalar s) (specifieds_padded_with_defaults st) =
        some (SpecVal.num 0)) ∧
    (∀ k, k ∈ dictKeys (specifieds_padded_with_defaults st) ↔
      k ∈ dictKeys st.specifieds ∨
      ∃ s, k = SpecKey.scalar s ∧ s ∈ st.specifiedsSymbols ∧
        symbol_is_in_specifieds_dict s st.specifieds = false) ∧
    (∀ s, symbol_is_in_specifieds_dict s st.specifieds = true ↔
      ∃ k ∈ dictKeys st.specifieds, s ∈ SpecKey.syms k) ∧
    (∀ k v, dictLookup k st.initialConditions = some v →
      dictLookup k (initial_conditions_padded_with_defaults st) = some v) ∧
    (∀ s, s ∈ states st → hasKey s st.initialConditions = false →
      dictLookup s (initial_conditions_padded_with_defaults st) = some 0) ∧
    (∀ s, s ∈ dictKeys (initial_conditions_padded_with_defaults st) ↔ s ∈ states st) := by
  refine ⟨?_, ?_, ?_, ?_, ?_, ?_, ?_⟩
  · intro k v h
    have hnone : dictLookup k ((st.specifiedsSymbols.filter
        (fun s => ! symbol_is_in_specifieds_dict s st.specifieds)).map
        (fun s => (SpecKey.scalar s, SpecVal.num 0))) = none := by
      apply dictLookup_map_fn_none
      intro a ha heq
      rcases List.mem_filter.mp ha with ⟨_, hns⟩
      have hkmem : k ∈ dictKeys st.specifieds := mem_dictKeys_of_dictLookup k _ v h
      rw [← heq] at hkmem
      have href : symbol_is_in_specifieds_dict a st.specifieds = true :=
        (symbol_is_in_specifieds_dict_iff a st.specifieds).mpr
          ⟨SpecKey.scalar a, hkmem, by simp [SpecKey.syms]⟩
      simp [href] at hns
    rw [specifieds_padded_with_defaults, dictLookup_append_of_none _ _ _ hnone]
    exact h
  · intro s hs hns
    rw [specifieds_padded_with_defaults]
    apply dictLookup_append_of_some
    apply dictLookup_map_fn_some
    exact ⟨s, List.mem_filter.mpr ⟨hs, by simp [hns]⟩, rfl⟩
  · intro k
    simp only [specifieds_padded_with_defaults, dictKeys_append, List.mem_append,
      dictKeys_map_fn, List.mem_map, List.mem_filter]
    constructor
    · rintro (h | ⟨a, ⟨ha, hna⟩, rfl⟩)
      · exact Or.inl h
      · exact Or.inr ⟨a, rfl, ha, by simpa using hna⟩
    · rintro (h | ⟨a, rfl, ha, hna⟩)
      · exact Or.inl h
      · exact Or.inr ⟨a, ⟨ha, by simp [hna]⟩, rfl⟩
  · intro s
    exact symbol_is_in_specifieds_dict_iff s st.specifieds
  · intro k v h
    exact ic_padding_preserves st k v h
  · intro s hs hk
    exact ic_padding_default st s hs hk
  · intro s
    simp only [initial_conditions_padded_with_defaults, dictKeys_append, List.mem_append,
      dictKeys_map_fn, List.mem_map, List.mem_filter]
    constructor
    · rintro (h | ⟨a, ⟨ha, _⟩, rfl⟩)
      · exact hvalidIC s h
      · exact ha
    · intro hs
      cases hk : hasKey s st.initialConditions with
      | true => exact Or.inl ((hasKey_iff_mem_dictKeys s st.initialConditions).mp hk)
      | false => exact Or.inr ⟨s, ⟨hs, by simp [hk]⟩, rfl⟩

theorem check_constants_ok_iff (syms keys : List Sym) :
    check_constants syms keys = .ok () ↔ ∀ k ∈ keys, k ∈ syms := by
  induction keys with
  | nil => simp [check_constants]
  | cons k rest ih =>
    by_cases hk : k ∈ syms
    · simp [check_constants, hk, ih]
    · simp only [check_constants, if_neg hk]
      constructor
      · intro h; cases h
      · intro h; exact absurd (h k (by simp)) hk

theorem check_constants_error_iff (syms keys : List Sym) (e : PyError)
    (h : check_constants syms keys = .error e) :
    ∃ k, e = .invalidConstant k ∧ k ∈ keys ∧ k ∉ syms := by
  induction keys with
  | nil => simp [check_constants] at h
  | cons k rest ih =>
    by_cases hk : k ∈ syms
    · rw [check_constants, if_pos hk] at h
      rcases ih h with ⟨k2, he, hmem, hns⟩
      exact ⟨k2, he, by simp [hmem], hns⟩
    · rw [check_constants, if_neg hk] at h
      obtain rfl : PyError.invalidConstant k = e := by injection h
      exact ⟨k, rfl, by simp, hk⟩

theorem check_initial_conditions_ok_iff (syms keys : List Sym) :
    check_initial_conditions syms keys = .ok () ↔ ∀ k ∈ keys, k ∈ syms := by
  induction keys with
  | nil => simp [check_initial_conditions]
  | cons k rest ih =>
    by_cases hk : k ∈ syms
    · simp [check_initial_conditions, hk, ih]
    · simp only [check_initial_conditions, if_neg hk]
      constructor
      · intro h; cases h
      · intro h; exact absurd (h k (by simp)) hk

theorem check_initial_conditions_error_iff (syms keys : List Sym) (e : PyError)
    (h : check_initial_conditions syms keys = .error e) :
    ∃ k, e = .invalidState k ∧ k ∈ keys ∧ k ∉ syms := by
  induction keys with
  | nil => simp [check_initial_conditions] at h
  | cons k rest ih =>
    by_cases hk : k ∈ syms
    · rw [check_initial_conditions, if_pos hk] at h
      rcases ih h with ⟨k2, he, hmem, hns⟩
      exact ⟨k2, he, by simp [hmem], hns⟩
    · rw [check_initial_conditions, if_neg hk] at h
      obtain rfl : PyError.invalidState k = e := by injection h
      exact ⟨k, rfl, by simp, hk⟩

/-- C5: a constants mapping with a key outside the constant-symbol set
makes the setter raise the invalid-symbol `ValueError`, and the whole
instance (in particular the previously stored constants mapping) is left
unchanged. -/
theorem constants_setter_raises_on_invalid_symbol (st : SystemState) (c : ConstDict)
    (h : ∃ k ∈ dictKeys c, k ∉ st.constantsSymbols) :
    ∃ k, k ∈ dictKeys c ∧ k ∉ st.constantsSymbols ∧
      constants_setter st c = (st, some (PyError.invalidConstant k)) := by
  cases hc : check_constants st.constantsSymbols (dictKeys c) with
  | ok u =>
    rcases h with ⟨k, hk, hns⟩
    exact absurd ((check_constants_ok_iff _ _).mp (by cases u; exact hc) k hk) hns
  | error e =>
    rcases check_constants_error_iff _ _ _ hc with ⟨k, rfl, hk, hns⟩
    exact ⟨k, hk, hns, by simp [constants_setter, hc]⟩

/-- C6: the states accessor is the coordinate list concatenated with the
speed list, in that order; it is determined solely by the attached
eom method, and none of the mutating operations changes the attached
eom method, so the list is fixed once the model is attached. -/
theorem states_is_coordinates_append_speeds (st : SystemState) :
    states st = coordinates st ++ speeds st ∧
    states st = st.eom.q ++ st.eom.u ∧
    (∀ st2 : SystemState, st2.eom = st.eom → states st2 = states st) ∧
    (∀ c, ((constants_setter st c).1).eom = st.eom) ∧
    (∀ d, ((specifieds_setter st d).1).eom = st.eom) ∧
    (∀ f, ((ode_solver_setter st f).1).eom = st.eom) ∧
    (∀ ic, ((initial_conditions_setter st ic).1).eom = st.eom) ∧
    (∀ g cnt, ((generate_ode_function st g cnt).1).eom = st.eom) ∧
    (∀ times cnt st2 call cnt2, integrate st times cnt = Except.ok (st2, call, cnt2) →
      st2.eom = st.eom ∧ states st2 = states st) := by
  refine ⟨rfl, rfl, ?_, ?_, ?_, ?_, ?_, ?_, ?_⟩
  · intro st2 h
    simp [states, coordinates, speeds, h]
  · intro c
    cases hc : check_constants st.constantsSymbols (dictKeys c) <;>
      simp [constants_setter, hc]
  · intro d
    cases hd : check_specifieds st.specifiedsSymbols d <;>
      simp [specifieds_setter, hd]
  · intro f
    by_cases hf : f.isCallable <;> simp [ode_solver_setter, hf]
  · intro ic
    cases hic : check_initial_conditions (states st) (dictKeys ic) <;>
      simp [initial_conditions_setter, hic]
  · intro g cnt
    simp [generate_ode_function]
  · intro times cnt st2 call cnt2 h
    cases h1 : check_constants st.constantsSymbols (dictKeys st.constants) with
    | error e => rw [integrate_check1_error st times cnt e h1] at h; cases h
    | ok u1 =>
      cases u1
      cases h2 : check_specifieds st.specifiedsSymbols st.specifieds with
      | error e => rw [integrate_check2_error st times cnt e h1 h2] at h; cases h
      | ok u2 =>
        cases u2
        cases h3 : check_initial_conditions (states st) (dictKeys st.initialConditions) with
        | error e => rw [integrate_check3_error st times cnt e h1 h2 h3] at h; cases h
        | ok u3 =>
          cases u3
          obtain ⟨x0, hx⟩ := lookup_all_total st
          cases hf : st.evaluateOdeFunction with
          | none =>
            rw [integrate_ok_uncached st times cnt x0 h1 h2 h3 hf hx] at h
            simp only [Except.ok.injEq, Prod.mk.injEq] at h
            obtain ⟨hst, -, -⟩ := h
            constructor
            · rw [← hst]
            · rw [← hst]
              rfl
          | some f =>
            rw [integrate_ok_cached st times cnt f x0 h1 h2 h3 hf hx] at h
            simp only [Except.ok.injEq, Prod.mk.injEq] at h
            obtain ⟨hst, -, -⟩ := h
            constructor
            · rw [← hst]
            · rw [← hst]

/-- The specified symbols referenced by the keys of a specifieds dict,
tuple keys flattened in order. -/
def flatten_spec_keys (d : SpecDict) : List Sym :=
  d.flatMap (fun kv => SpecKey.syms kv.1)

theorem flatten_spec_keys_nil : flatten_spec_keys [] = [] := rfl

theorem flatten_spec_keys_cons_scalar (s : Sym) (v : SpecVal) (rest : SpecDict) :
    flatten_spec_keys ((SpecKey.scalar s, v) :: rest) = s :: flatten_spec_keys rest := by
  simp [flatten_spec_keys, SpecKey.syms]

theorem flatten_spec_keys_cons_tuple (ks : List Sym) (v : SpecVal) (rest : SpecDict) :
    flatten_spec_keys ((SpecKey.tuple ks, v) :: rest) = ks ++ flatten_spec_keys rest := by
  simp [flatten_spec_keys, SpecKey.syms]

theorem check_all_specified_ok_iff (syms ks : List Sym) :
    check_all_specified syms ks = .ok () ↔ ∀ s ∈ ks, s ∈ syms := by
  induction ks with
  | nil => simp [check_all_specified]
  | cons s rest ih =>
    by_cases hs : s ∈ syms
    · simp only [check_all_specified, assert_is_specified_symbol, if_pos hs, except_bind_ok]
      simp [ih, hs]
    · simp only [check_all_specified, assert_is_specified_symbol, if_neg hs,
        except_bind_error]
      constructor
      · intro h; cases h
      · intro h; exact absurd (h s (by simp)) hs

theorem check_all_specified_error (syms ks : List Sym) (e : PyError)
    (h : check_all_specified syms ks = .error e) :
    ∃ s, e = .invalidSpecified s ∧ s ∈ ks ∧ s ∉ syms := by
  induction ks with
  | nil => simp [check_all_specified] at h
  | cons s rest ih =>
    by_cases hs : s ∈ syms
    · simp only [check_all_specified, assert_is_specified_symbol, if_pos hs,
        except_bind_ok] at h
      rcases ih h with ⟨s2, he, hmem, hns⟩
      exact ⟨s2, he, by simp [hmem], hns⟩
    · simp only [check_all_specified, assert_is_specified_symbol, if_neg hs,
        except_bind_error] at h
      injection h with h
      exact ⟨s, h.symm, by simp, hs⟩

theorem append_dup_checked_ok (acc ks : List Sym) (r : List Sym)
    (h : append_dup_checked acc ks = .ok r) :
    r = acc ++ ks ∧ ks.Nodup ∧ ∀ s ∈ ks, s ∉ acc := by
  induction ks generalizing acc r with
  | nil =>
    simp only [append_dup_checked] at h
    injection h with h
    simp [h.symm]
  | cons s rest ih =>
    by_cases hs : s ∈ acc
    · simp only [append_dup_checked, assert_symbol_appears_multiple_times, if_pos hs,
        except_bind_error] at h
      cases h
    · simp only [append_dup_checked, assert_symbol_appears_multiple_times, if_neg hs,
        except_bind_ok] at h
      rcases ih (acc ++ [s]) r h with ⟨hr, hnodup, hdisj⟩
      refine ⟨by simp [hr], ?_, ?_⟩
      · refine List.nodup_cons.mpr ⟨?_, hnodup⟩
        intro hmem
        exact (hdisj s hmem) (by simp)
      · intro x hx
        rcases List.mem_cons.mp hx with rfl | hx2
        · exact hs
        · intro hxacc; exact (hdisj x hx2) (by simp [hxacc])

theorem append_dup_checked_ok_of (ks : List Sym) : ∀ acc : List Sym, ks.Nodup →
    (∀ s ∈ ks, s ∉ acc) → append_dup_checked acc ks = .ok (acc ++ ks) := by
  induction ks with
  | nil =>
    intro acc _ _
    simp [append_dup_checked]
  | cons s rest ih =>
    intro acc hnodup hdisj
    have hs : s ∉ acc := hdisj s (by simp)
    simp only [append_dup_checked, assert_symbol_appears_multiple_times, if_neg hs,
      except_bind_ok]
    have hdisj2 : ∀ x ∈ rest, x ∉ acc ++ [s] := by
      intro x hx
      simp only [List.mem_append, List.mem_singleton]
      rintro (hxacc | rfl)
      · exact hdisj x (by simp [hx]) hxacc
      · exact (List.nodup_cons.mp hnodup).1 hx
    rw [ih (acc ++ [s]) (List.nodup_cons.mp hnodup).2 hdisj2]
    simp

theorem append_dup_checked_error (acc ks : List Sym) (e : PyError)
    (h : append_dup_checked acc ks = .error e) :
    ∃ s, e = .duplicateSpecified s ∧ s ∈ ks := by
  induction ks generalizing acc with
  | nil => simp [append_dup_checked] at h
  | cons s rest ih =>
    by_cases hs : s ∈ acc
    · simp only [append_dup_checked, assert_symbol_appears_multiple_times, if_pos hs,
        except_bind_error] at h
      injection h with h
      exact ⟨s, h.symm, by simp⟩
    · simp only [append_dup_checked, assert_symbol_appears_multiple_times, if_neg hs,
        except_bind_ok] at h
      rcases ih (acc ++ [s]) h with ⟨s2, he, hmem⟩
      exact ⟨s2, he, by simp [hmem]⟩

theorem check_specifieds_from_ok_iff (syms : List Sym) (d : SpecDict) (acc : List Sym) :
    check_specifieds_from syms acc d = .ok () ↔
      (∀ s ∈ flatten_spec_keys d, s ∈ syms) ∧ (flatten_spec_keys d).Nodup ∧
      (∀ s ∈ flatten_spec_keys d, s ∉ acc) := by
  induction d generalizing acc with
  | nil => simp [check_specifieds_from, flatten_spec_keys_nil]
  | cons kv rest ih =>
    obtain ⟨k, v⟩ := kv
    cases k with
    | scalar s =>
      by_cases hs : s ∈ syms
      · by_cases hacc : s ∈ acc
        · simp only [check_specifieds_from, assert_is_specified_symbol, if_pos hs,
            except_bind_ok, assert_symbol_appears_multiple_times, if_pos hacc,
            except_bind_error, flatten_spec_keys_cons_scalar]
          constructor
          · intro h; cases h
          · rintro ⟨-, -, hdisj⟩
            exact absurd hacc (hdisj s (by simp))
        · simp only [check_specifieds_from, assert_is_specified_symbol, if_pos hs,
            except_bind_ok, assert_symbol_appears_multiple_times, if_neg hacc,
            flatten_spec_keys_cons_scalar, ih, List.nodup_cons]
          constructor
          · rintro ⟨hvalid, hnodup, hdisj⟩
            refine ⟨?_, ⟨?_, hnodup⟩, ?_⟩
            · rintro x hx
              rcases List.mem_cons.mp hx with rfl | hx2
              · exact hs
              · exact hvalid x hx2
            · intro hsF
              exact (hdisj s hsF) (by simp)
            · intro x hx
              rcases List.mem_cons.mp hx with rfl | hx2
              · exact hacc
              · intro hxacc
                exact (hdisj x hx2) (by simp [hxacc])
          · rintro ⟨hvalid, ⟨hsF, hnodup⟩, hdisj⟩
            refine ⟨fun x hx => hvalid x (by simp [hx]), hnodup, ?_⟩
            intro x hx
            simp only [List.mem_append, List.mem_singleton]
            rintro (hxacc | rfl)
            · exact (hdisj x (by simp [hx])) hxacc
            · exact hsF hx
      · simp only [check_specifieds_from, assert_is_specified_symbol, if_neg hs,
          except_bind_error, flatten_spec_keys_cons_scalar]
        constructor
        · intro h; cases h
        · rintro ⟨hvalid, -, -⟩
          exact absurd (hvalid s (by simp)) hs
    | tuple ks =>
      simp only [check_specifieds_from, flatten_spec_keys_cons_tuple]
      cases hca : check_all_specified syms ks with
      | error e =>
        rw [except_bind_error]
        rcases check_all_specified_error syms ks e hca with ⟨s, -, hsks, hsns⟩
        constructor
        · intro h; cases h
        · rintro ⟨hvalid, -, -⟩
          exact absurd (hvalid s (by simp [hsks])) hsns
      | ok u =>
        cases u
        rw [except_bind_ok]
        have hvks : ∀ s ∈ ks, s ∈ syms := (check_all_specified_ok_iff syms ks).mp hca
        cases had : append_dup_checked acc ks with
        | error e =>
          rw [except_bind_error]
          constructor
          · intro h; cases h
          · rintro ⟨-, hnodup, hdisj⟩
            have hok := append_dup_checked_ok_of ks acc
              (List.Nodup.of_append_left hnodup)
              (fun s hsk => hdisj s (by simp [hsk]))
            rw [hok] at had
            cases had
        | ok sofar =>
          rw [except_bind_ok]
          obtain ⟨rfl, hnodupks, hdisjks⟩ := append_dup_checked_ok acc ks sofar had
          rw [ih (acc ++ ks)]
          constructor
          · rintro ⟨hvF, hndF, hdF⟩
            refine ⟨?_, ?_, ?_⟩
            · intro x hx
              rcases List.mem_append.mp hx with hx2 | hx2
              · exact hvks x hx2
              · exact hvF x hx2
            · rw [List.nodup_append]
              exact ⟨hnodupks, hndF, fun a ha hb => (hdF a hb) (by simp [ha])⟩
            · intro x hx
              rcases List.mem_append.mp hx with hx2 | hx2
              · exact hdisjks x hx2
              · intro hxacc
                exact (hdF x hx2) (by simp [hxacc])
          · rintro ⟨hvAll, hndAll, hdAll⟩
            rw [List.nodup_append] at hndAll
            obtain ⟨-, hndF, hdisjKF⟩ := hndAll
            refine ⟨fun x hx => hvAll x (by simp [hx]), hndF, ?_⟩
            intro x hx
            simp only [List.mem_append]
            rintro (hxacc | hxks)
            · exact (hdAll x (by simp [hx])) hxacc
            · exact hdisjKF hxks hx

theorem check_specifieds_ok_iff (syms : List Sym) (d : SpecDict) :
    check_specifieds syms d = .ok () ↔
      (∀ s ∈ flatten_spec_keys d, s ∈ syms) ∧ (flatten_spec_keys d).Nodup := by
  rw [check_specifieds, check_specifieds_from_ok_iff]
  simp

theorem check_specifieds_from_error_kind (syms : List Sym) (acc : List Sym) (d : SpecDict)
    (e : PyError) (h : check_specifieds_from syms acc d = .error e) :
    (∃ s, e = .invalidSpecified s ∧ s ∈ flatten_spec_keys d ∧ s ∉ syms) ∨
    (∃ s, e = .duplicateSpecified s ∧ s ∈ flatten_spec_keys d) := by
  induction d generalizing acc with
  | nil => simp [check_specifieds_from] at h
  | cons kv rest ih =>
    obtain ⟨k, v⟩ := kv
    cases k with
    | scalar s =>
      by_cases hs : s ∈ syms
      · by_cases hacc : s ∈ acc
        · simp only [check_specifieds_from, assert_is_specified_symbol, if_pos hs,
            except_bind_ok, assert_symbol_appears_multiple_times, if_pos hacc,
            except_bind_error] at h
          injection h with h
          exact Or.inr ⟨s, h.symm, by simp [flatten_spec_keys_cons_scalar]⟩
        · simp only [check_specifieds_from, assert_is_specified_symbol, if_pos hs,
            except_bind_ok, assert_symbol_appears_multiple_times, if_neg hacc] at h
          rcases ih (acc ++ [s]) h with ⟨s2, he, hmem, hns⟩ | ⟨s2, he, hmem⟩
          · exact Or.inl ⟨s2, he, by simp [flatten_spec_keys_cons_scalar, hmem], hns⟩
          · exact Or.inr ⟨s2, he, by simp [flatten_spec_keys_cons_scalar, hmem]⟩
      · simp only [check_specifieds_from, assert_is_specified_symbol, if_neg hs,
          except_bind_error] at h
        injection h with h
        exact Or.inl ⟨s, h.symm, by simp [flatten_spec_keys_cons_scalar], hs⟩
    | tuple ks =>
      simp only [check_specifieds_from] at h
      cases hca : check_all_specified syms ks with
      | error e2 =>
        rw [hca, except_bind_error] at h
        injection h with h
        rcases check_all_specified_error syms ks e2 hca with ⟨s, he, hmem, hns⟩
        exact Or.inl ⟨s, by rw [← h, he],
          by simp [flatten_spec_keys_cons_tuple, hmem], hns⟩
      | ok u =>
        cases u
        rw [hca, except_bind_ok] at h
        cases had : append_dup_checked acc ks with
        | error e2 =>
          rw [had, except_bind_error] at h
          injection h with h
          rcases append_dup_checked_error acc ks e2 had with ⟨s, he, hmem⟩
          exact Or.inr ⟨s, by rw [← h, he],
            by simp [flatten_spec_keys_cons_tuple, hmem]⟩
        | ok sofar =>
          rw [had, except_bind_ok] at h
          rcases ih sofar h with ⟨s2, he, hmem, hns⟩ | ⟨s2, he, hmem⟩
          · exact Or.inl ⟨s2, he, by simp [flatten_spec_keys_cons_tuple, hmem], hns⟩
          · exact Or.inr ⟨s2, he, by simp [flatten_spec_keys_cons_tuple, hmem]⟩

/-- C4: a specifieds mapping in which a specified symbol is referenced
by more than one key (after flattening tuple keys) makes the setter
raise the duplicate-symbol `ValueError`, and the instance is left
unchanged. -/
theorem specifieds_setter_raises_on_duplicate (st : SystemState) (d : SpecDict)
    (hvalid : ∀ s ∈ flatten_spec_keys d, s ∈ st.specifiedsSymbols)
    (hdup : ¬ (flatten_spec_keys d).Nodup) :
    ∃ s, specifieds_setter st d = (st, some (PyError.duplicateSpecified s)) := by
  cases hc : check_specifieds st.specifiedsSymbols d with
  | ok u =>
    cases u
    rcases (check_specifieds_ok_iff _ _).mp hc with ⟨-, hnd⟩
    exact absurd hnd hdup
  | error e =>
    rcases check_specifieds_from_error_kind st.specifiedsSymbols [] d e hc with
      ⟨s, -, hmem, hns⟩ | ⟨s, rfl, -⟩
    · exact absurd (hvalid s hmem) hns
    · exact ⟨s, by simp [specifieds_setter, hc]⟩

/-- C1: `integrate` re-runs the three validations on the currently
stored mappings and raises the validation error corresponding to the
invalid mapping, before any codegen-backend or `ode_solver` call (an
error result carries no `IntegrateCall` and no new counter): an invalid
key in the stored constants raises `invalidConstant` naming a key of
that mapping; with valid constants, an invalid stored specifieds
mapping raises `invalidSpecified` naming a symbol referenced by that
mapping (and absent from the specified-symbol set) or
`duplicateSpecified` naming a symbol referenced by that mapping — and
exactly `duplicateSpecified` when every referenced symbol is valid;
with valid constants and specifieds, an invalid key in the stored
initial conditions raises `invalidState` naming a key of that
mapping. -/
theorem integrate_revalidates_stored_mappings (st : SystemState) (times : List ℚ)
    (cnt : Nat) :
    ((∃ k ∈ dictKeys st.constants, k ∉ st.constantsSymbols) →
      ∃ k, k ∈ dictKeys st.constants ∧ k ∉ st.constantsSymbols ∧
        integrate st times cnt = .error (PyError.invalidConstant k)) ∧
    ((∀ k ∈ dictKeys st.constants, k ∈ st.constantsSymbols) →
      ¬ ((∀ s ∈ flatten_spec_keys st.specifieds, s ∈ st.specifiedsSymbols) ∧
         (flatten_spec_keys st.specifieds).Nodup) →
      ∃ e, integrate st times cnt = .error e ∧
        ((∃ s, e = PyError.invalidSpecified s ∧ s ∈ flatten_spec_keys st.specifieds ∧
            s ∉ st.specifiedsSymbols) ∨
         (∃ s, e = PyError.duplicateSpecified s ∧
            s ∈ flatten_spec_keys st.specifieds))) ∧
    ((∀ k ∈ dictKeys st.constants, k ∈ st.constantsSymbols) →
      (∀ s ∈ flatten_spec_keys st.specifieds, s ∈ st.specifiedsSymbols) →
      ¬ (flatten_spec_keys st.specifieds).Nodup →
      ∃ s, integrate st times cnt = .error (PyError.duplicateSpecified s) ∧
        s ∈ flatten_spec_keys st.specifieds) ∧
    ((∀ k ∈ dictKeys st.constants, k ∈ st.constantsSymbols) →
      (∀ s ∈ flatten_spec_keys st.specifieds, s ∈ st.specifiedsSymbols) →
      (flatten_spec_keys st.specifieds).Nodup →
      (∃ k ∈ dictKeys st.initialConditions, k ∉ states st) →
      ∃ k, k ∈ dictKeys st.initialConditions ∧ k ∉ states st ∧
        integrate st times cnt = .error (PyError.invalidState k)) := by
  refine ⟨?_, ?_, ?_, ?_⟩
  · rintro ⟨k0, hk0, hk0n⟩
    cases h1 : check_constants st.constantsSymbols (dictKeys st.constants) with
    | ok u1 =>
      cases u1
      exact absurd ((check_constants_ok_iff _ _).mp h1 k0 hk0) hk0n
    | error e =>
      rcases check_constants_error_iff _ _ _ h1 with ⟨k, rfl, hk, hkn⟩
      exact ⟨k, hk, hkn, integrate_check1_error st times cnt _ h1⟩
  · intro hc1 hbad
    have h1 : check_constants st.constantsSymbols (dictKeys st.constants) = .ok () :=
      (check_constants_ok_iff _ _).mpr hc1
    cases h2 : check_specifieds st.specifiedsSymbols st.specifieds with
    | ok u2 =>
      cases u2
      exact absurd ((check_specifieds_ok_iff _ _).mp h2) hbad
    | error e =>
      exact ⟨e, integrate_check2_error st times cnt e h1 h2,
        check_specifieds_from_error_kind st.specifiedsSymbols [] st.specifieds e h2⟩
  · intro hc1 hc2 hdup
    have h1 : check_constants st.constantsSymbols (dictKeys st.constants) = .ok () :=
      (check_constants_ok_iff _ _).mpr hc1
    cases h2 : check_specifieds st.specifiedsSymbols st.specifieds with
    | ok u2 =>
      cases u2
      exact absurd ((check_specifieds_ok_iff _ _).mp h2).2 hdup
    | error e =>
      rcases check_specifieds_from_error_kind st.specifiedsSymbols [] st.specifieds e h2 with
        ⟨s, -, hmem, hns⟩ | ⟨s, rfl, hmem⟩
      · exact absurd (hc2 s hmem) hns
      · exact ⟨s, integrate_check2_error st times cnt _ h1 h2, hmem⟩
  · intro hc1 hc2 hnd hbad
    have h1 : check_constants st.constantsSymbols (dictKeys st.constants) = .ok () :=
      (check_constants_ok_iff _ _).mpr hc1
    have h2 : check_specifieds st.specifiedsSymbols st.specifieds = .ok () :=
      (check_specifieds_ok_iff _ _).mpr ⟨hc2, hnd⟩
    rcases hbad with ⟨k0, hk0, hk0n⟩
    cases h3 : check_initial_conditions (states st) (dictKeys st.initialConditions) with
    | ok u3 =>
      cases u3
      exact absurd ((check_initial_conditions_ok_iff _ _).mp h3 k0 hk0) hk0n
    | error e =>
      rcases check_initial_conditions_error_iff _ _ _ h3 with ⟨k, rfl, hk, hkn⟩
      exact ⟨k, hk, hkn, integrate_check3_error st times cnt _ h1 h2 h3⟩

/-- C7: on a valid configuration, `integrate` hands the integrator an
initial-state vector whose i-th element is the defaults-padded
initial-condition value of the i-th state symbol (coordinates first,
then speeds). -/
theorem integrate_initial_state_ordering (st : SystemState) (times : List ℚ) (cnt : Nat)
    (h1 : check_constants st.constantsSymbols (dictKeys st.constants) = .ok ())
    (h2 : check_specifieds st.specifiedsSymbols st.specifieds = .ok ())
    (h3 : check_initial_conditions (states st) (dictKeys st.initialConditions) = .ok ()) :
    ∃ st1 call cnt1, integrate st times cnt = .ok (st1, call, cnt1) ∧
      call.x0.length = (states st).length ∧
      ∀ i, ∀ hi : i < (states st).length,
        call.x0.get? i =
          dictLookup ((states st).get ⟨i, hi⟩) (initial_conditions_padded_with_defaults st) := by
  rcases lookup_all_ok_of_covered (initial_conditions_padded_with_defaults st) (states st)
    (fun k hk => padded_ic_covers_states st k hk) with ⟨x0, hx, hlen, hget⟩
  cases hf : st.evaluateOdeFunction with
  | none =>
    exact ⟨_, _, _, integrate_ok_uncached st times cnt x0 h1 h2 h3 hf hx, hlen, hget⟩
  | some f =>
    exact ⟨_, _, _, integrate_ok_cached st times cnt f x0 h1 h2 h3 hf hx, hlen, hget⟩

/-- C8: the codegen method installs a brand-new function object on every
call, even on identical symbolic input (so an explicit no-argument call
is the regenerate operation); `integrate` compiles — with the default
generator — only when no function is cached, and a second `integrate`
after the first caching one reuses the same cached function without
recompiling. -/
theorem ode_function_cache_spec (st : SystemState) (times : List ℚ) (cnt : Nat)
    (h1 : check_constants st.constantsSymbols (dictKeys st.constants) = .ok ())
    (h2 : check_specifieds st.specifiedsSymbols st.specifieds = .ok ())
    (h3 : check_initial_conditions (states st) (dictKeys st.initialConditions) = .ok ()) :
    (∀ g c, (generate_ode_function st g c).1.evaluateOdeFunction =
        some (generate_ode_function st g c).2.1 ∧
      (generate_ode_function (generate_ode_function st g c).1 g
          ((generate_ode_function st g c).2.2)).2.1 ≠ (generate_ode_function st g c).2.1) ∧
    (∀ f, st.evaluateOdeFunction = some f →
      ∃ st1 call cnt1, integrate st times cnt = .ok (st1, call, cnt1) ∧
        call.compiledDuringCall = false ∧ call.func = f ∧
        st1.evaluateOdeFunction = some f ∧ cnt1 = cnt) ∧
    (st.evaluateOdeFunction = none →
      ∃ st1 call cnt1, integrate st times cnt = .ok (st1, call, cnt1) ∧
        call.compiledDuringCall = true ∧ call.generatorUsed = some defaultGenerator ∧
        st1.evaluateOdeFunction = some call.func ∧
        ∃ st2 call2 cnt2, integrate st1 times cnt1 = .ok (st2, call2, cnt2) ∧
          call2.compiledDuringCall = false ∧ call2.func = call.func ∧
          st2.evaluateOdeFunction = some call.func) := by
  obtain ⟨x0, hx⟩ := lookup_all_total st
  refine ⟨?_, ?_, ?_⟩
  · intro g c
    refine ⟨rfl, ?_⟩
    intro hcontra
    simp only [generate_ode_function, OdeFunc.mk.injEq] at hcontra
    omega
  · intro f hf
    exact ⟨_, _, _, integrate_ok_cached st times cnt f x0 h1 h2 h3 hf hx, rfl, rfl, hf, rfl⟩
  · intro hf
    refine ⟨_, _, _, integrate_ok_uncached st times cnt x0 h1 h2 h3 hf hx, rfl, rfl, rfl, ?_⟩
    obtain ⟨x1, hx1⟩ :=
      lookup_all_total { st with evaluateOdeFunction := some (OdeFunc.mk cnt defaultGenerator) }
    exact ⟨_, _, _,
      integrate_ok_cached
        { st with evaluateOdeFunction := some (OdeFunc.mk cnt defaultGenerator) }
        times (cnt + 1) (OdeFunc.mk cnt defaultGenerator) x1 h1 h2 h3 rfl hx1,
      rfl, rfl, rfl⟩

theorem list_remove_not_mem (x : Sym) (xs : List Sym) (h : x ∉ xs) :
    list_remove x xs = .error .timeSymbolMissing := by
  induction xs with
  | nil => rfl
  | cons a rest ih =>
    have hax : ¬ a = x := fun he => h (by simp [he])
    rw [list_remove, if_neg hax, ih (fun hm => h (by simp [hm]))]
    rfl

theorem list_remove_mem (x : Sym) (xs : List Sym) (h : x ∈ xs) :
    ∃ l, list_remove x xs = .ok l := by
  induction xs with
  | nil => simp at h
  | cons a rest ih =>
    by_cases hax : a = x
    · exact ⟨rest, by rw [list_remove, if_pos hax]⟩
    · have hm : x ∈ rest := by
        rcases List.mem_cons.mp h with heq | hm
        · exact absurd heq.symm hax
        · exact hm
      rcases ih hm with ⟨l, hl⟩
      exact ⟨a :: l, by rw [list_remove, if_neg hax, hl]; rfl⟩

theorem list_remove_ok_spec (x : Sym) (xs : List Sym) : ∀ l : List Sym,
    list_remove x xs = .ok l → x ∈ xs ∧ (xs.Nodup → x ∉ l) := by
  induction xs with
  | nil =>
    intro l h
    cases h
  | cons a rest ih =>
    intro l h
    by_cases hax : a = x
    · subst hax
      rw [list_remove, if_pos rfl] at h
      injection h with h
      subst h
      exact ⟨by simp, fun hnd => (List.nodup_cons.mp hnd).1⟩
    · rw [list_remove, if_neg hax] at h
      cases hr : list_remove x rest with
      | error e =>
        rw [hr] at h
        cases h
      | ok l2 =>
        rw [hr] at h
        have hl : a :: l2 = l := by
          simpa [Except.map] using h
        subst hl
        rcases ih l2 hr with ⟨hmem, hnl⟩
        refine ⟨by simp [hmem], fun hnd hxl => ?_⟩
        rcases List.mem_cons.mp hxl with heq | hm
        · exact hax heq.symm
        · exact hnl (List.nodup_cons.mp hnd).2 hm

/-- C9: the constant-symbol list computed at construction never contains
the time symbol (the classification result from the external model being
duplicate-free); when the model's symbols do not contain t, the removal
itself raises, so the whole construction raises, and construction can
succeed exactly when t occurs among the model's non-dynamic symbols. -/
theorem constant_symbols_exclude_time_symbol (eom : KanesMethodModel) :
    (∀ l, eom.otherSymbols.Nodup → Kane_constant_symbols eom = .ok l → tSym ∉ l) ∧
    (tSym ∉ eom.otherSymbols →
      Kane_constant_symbols eom = .error PyError.timeSymbolMissing) ∧
    ((∃ l, Kane_constant_symbols eom = .ok l) ↔ tSym ∈ eom.otherSymbols) ∧
    (∀ c d f ic, tSym ∉ eom.otherSymbols →
      SystemInit eom c d f ic = .error PyError.timeSymbolMissing) := by
  refine ⟨?_, ?_, ?_, ?_⟩
  · intro l hnd h
    exact (list_remove_ok_spec tSym eom.otherSymbols l h).2 hnd
  · intro h
    exact list_remove_not_mem tSym eom.otherSymbols h
  · constructor
    · rintro ⟨l, hl⟩
      exact (list_remove_ok_spec tSym eom.otherSymbols l hl).1
    · intro h
      exact list_remove_mem tSym eom.otherSymbols h
  · intro c d f ic h
    have hk : Kane_constant_symbols eom = .error PyError.timeSymbolMissing :=
      list_remove_not_mem tSym eom.otherSymbols h
    simp [SystemInit, hk, except_bind_error]

theorem except_bind_ok_inv {ε α β : Type} (m : Except ε α) (f : α → Except ε β) (b : β)
    (h : (m >>= f) = .ok b) : ∃ a, m = .ok a ∧ f a = .ok b := by
  cases m with
  | error e => rw [except_bind_error] at h; cases h
  | ok a =>
    rw [except_bind_ok] at h
    exact ⟨a, rfl, h⟩

theorem setterExcept_ode_ok (st : SystemState) (f : OdeSolver) (st3 : SystemState)
    (h : setterExcept (ode_solver_setter st f) = .ok st3) :
    f.isCallable = true ∧ st3 = { st with odeSolver := f } := by
  by_cases hcall : f.isCallable
  · rw [ode_solver_setter, if_pos hcall] at h
    simp only [setterExcept] at h
    injection h with h
    exact ⟨hcall, h.symm⟩
  · rw [ode_solver_setter, if_neg hcall] at h
    simp only [setterExcept] at h
    cases h

theorem setterExcept_ic_ok (st : SystemState) (ic : ICDict) (st4 : SystemState)
    (h : setterExcept (initial_conditions_setter st ic) = .ok st4) :
    st4 = { st with initialConditions := ic } := by
  cases hc : check_initial_conditions (states st) (dictKeys ic) with
  | error e =>
    simp only [initial_conditions_setter, hc, setterExcept] at h
    cases h
  | ok u =>
    cases u
    simp only [initial_conditions_setter, hc, setterExcept] at h
    injection h with h
    exact h.symm

theorem SystemInit_ok_solver (eom : KanesMethodModel) (c : ConstDict) (d : SpecDict)
    (f : OdeSolver) (ic : ICDict) (st2 : SystemState)
    (h : SystemInit eom c d f ic = .ok st2) :
    f.isCallable = true ∧ st2.odeSolver = f := by
  simp only [SystemInit] at h
  rcases except_bind_ok_inv _ _ _ h with ⟨csyms, hk, h⟩
  rcases except_bind_ok_inv _ _ _ h with ⟨st1, hs1, h⟩
  rcases except_bind_ok_inv _ _ _ h with ⟨stb, hs2, h⟩
  rcases except_bind_ok_inv _ _ _ h with ⟨st3, hs3, h⟩
  rcases except_bind_ok_inv _ _ _ h with ⟨st4, hs4, h⟩
  obtain ⟨hcall, hst3⟩ := setterExcept_ode_ok stb f st3 hs3
  have hst4 := setterExcept_ic_ok st3 ic st4 hs4
  have hret : st2 = { st4 with evaluateOdeFunction := none } := by
    injection h with h
    exact h.symm
  refine ⟨hcall, ?_⟩
  rw [hret, hst4, hst3]

/-- C10: the `ode_solver` setter raises when the value is not callable,
leaving the whole instance (in particular the stored solver) unchanged,
and stores the value exactly when it is callable; the constructor goes
through the same setter, so no construction can succeed with a
non-callable solver, and a successful construction stores the given
solver. -/
theorem ode_solver_setter_requires_callable (st : SystemState) (f : OdeSolver) :
    (f.isCallable = false → ode_solver_setter st f = (st, some PyError.notCallable)) ∧
    (f.isCallable = true → ode_solver_setter st f = ({ st with odeSolver := f }, none)) ∧
    (∀ eom c d ic st2, SystemInit eom c d f ic = .ok st2 →
      f.isCallable = true ∧ st2.odeSolver = f) := by
  refine ⟨?_, ?_, ?_⟩
  · intro h
    simp [ode_solver_setter, h]
  · intro h
    simp [ode_solver_setter, h]
  · intro eom c d ic st2 h
    exact SystemInit_ok_solver eom c d f ic st2 h

/-! Concrete instances used by the witnesses below. -/

/-- A small concrete model: coordinates 1 2, speeds 3 4, non-dynamic
symbols 0 (= t) 5 6, undefined dynamic symbols 7 8. -/
def exEom : KanesMethodModel :=
  { q := [1, 2], u := [3, 4], otherSymbols := [0, 5, 6], dynSymbols := [7, 8] }

/-- A model whose expressions use no symbol named t. -/
def exEomNoT : KanesMethodModel :=
  { q := [], u := [], otherSymbols := [5, 6], dynSymbols := [] }

/-- A validly configured instance over `exEom`. -/
def exSt : SystemState :=
  { eom := exEom
    constantsSymbols := [5, 6]
    specifiedsSymbols := [7, 8]
    constants := [(5, 2)]
    specifieds := [(SpecKey.scalar 7, SpecVal.num 3)]
    initialConditions := [(2, 9)]
    odeSolver := { id := 10, isCallable := true }
    evaluateOdeFunction := none }

/-- The same instance after its constants dict was mutated in place to
hold a key that is not a constant symbol. -/
def exStBadConstants : SystemState :=
  { exSt with constants := [(9, 2)] }

/-- A specifieds dict referencing symbol 7 through a scalar key and
again through a tuple key. -/
def exDupSpecifieds : SpecDict :=
  [(SpecKey.scalar 7, SpecVal.num 1), (SpecKey.tuple [8, 7], SpecVal.num 2)]

/-- The same instance after its specifieds dict was mutated in place to
reference symbol 7 twice inside one tuple key. -/
def exStBadSpecifieds : SystemState :=
  { exSt with specifieds := [(SpecKey.tuple [7, 7], SpecVal.num 1)] }

/-- The same instance after its initial-conditions dict was mutated in
place to hold a key that is not a state symbol. -/
def exStBadICs : SystemState :=
  { exSt with initialConditions := [(9, 1)] }

theorem integrate_revalidates_stored_mappings_witness :
    (∃ k, k ∈ dictKeys exStBadConstants.constants ∧
      k ∉ exStBadConstants.constantsSymbols ∧
      integrate exStBadConstants [0] 0 = Except.error (PyError.invalidConstant k)) ∧
    (∃ s, integrate exStBadSpecifieds [0] 0 =
        Except.error (PyError.duplicateSpecified s) ∧
      s ∈ flatten_spec_keys exStBadSpecifieds.specifieds) ∧
    (∃ k, k ∈ dictKeys exStBadICs.initialConditions ∧ k ∉ states exStBadICs ∧
      integrate exStBadICs [0] 0 = Except.error (PyError.invalidState k)) :=
  ⟨(integrate_revalidates_stored_mappings exStBadConstants [0] 0).1
     ⟨9, by decide, by decide⟩,
   (integrate_revalidates_stored_mappings exStBadSpecifieds [0] 0).2.2.1
     (by decide) (by decide) (by decide),
   (integrate_revalidates_stored_mappings exStBadICs [0] 0).2.2.2
     (by decide) (by decide) (by decide) ⟨9, by decide, by decide⟩⟩

theorem constants_padded_with_defaults_spec_witness :
    (∀ k ∈ dictKeys exSt.constants, k ∈ exSt.constantsSymbols) ∧
    dictLookup 5 (constants_padded_with_defaults exSt) = some 2 ∧
    dictLookup 6 (constants_padded_with_defaults exSt) = some 1 :=
  ⟨by decide,
   (constants_padded_with_defaults_spec exSt (by decide)).2.1 5 2 (by decide),
   (constants_padded_with_defaults_spec exSt (by decide)).2.2 6 (by decide) (by decide)⟩

theorem specifieds_and_initial_conditions_padding_spec_witness :
    (∀ k ∈ dictKeys exSt.initialConditions, k ∈ states exSt) ∧
    dictLookup (SpecKey.scalar 7) (specifieds_padded_with_defaults exSt) =
      some (SpecVal.num 3) ∧
    dictLookup (SpecKey.scalar 8) (specifieds_padded_with_defaults exSt) =
      some (SpecVal.num 0) ∧
    dictLookup 1 (initial_conditions_padded_with_defaults exSt) = some 0 :=
  ⟨by decide,
   (specifieds_and_initial_conditions_padding_spec exSt (by decide)).1
     (SpecKey.scalar 7) (SpecVal.num 3) (by decide),
   (specifieds_and_initial_conditions_padding_spec exSt (by decide)).2.1 8
     (by decide) (by decide),
   (specifieds_and_initial_conditions_padding_spec exSt (by decide)).2.2.2.2.2.1 1
     (by decide) (by decide)⟩

theorem specifieds_setter_raises_on_duplicate_witness :
    ∃ s, specifieds_setter exSt exDupSpecifieds =
      (exSt, some (PyError.duplicateSpecified s)) :=
  specifieds_setter_raises_on_duplicate exSt exDupSpecifieds (by decide) (by decide)

theorem constants_setter_raises_on_invalid_symbol_witness :
    ∃ k, k ∈ dictKeys [((9 : Sym), (1 : ℚ))] ∧ k ∉ exSt.constantsSymbols ∧
      constants_setter exSt [(9, 1)] = (exSt, some (PyError.invalidConstant k)) :=
  constants_setter_raises_on_invalid_symbol exSt [(9, 1)] ⟨9, by decide, by decide⟩

theorem states_is_coordinates_append_speeds_witness :
    states exSt = [1, 2, 3, 4] ∧
    states { exSt with constants := [(5, 3)] } = states exSt :=
  ⟨by decide, (states_is_coordinates_append_speeds exSt).2.2.1 _ rfl⟩

theorem integrate_initial_state_ordering_witness :
    check_constants exSt.constantsSymbols (dictKeys exSt.constants) = Except.ok () ∧
    (∃ st1 call cnt1, integrate exSt [0] 0 = Except.ok (st1, call, cnt1) ∧
      call.x0.length = (states exSt).length ∧
      ∀ i, ∀ hi : i < (states exSt).length,
        call.x0.get? i =
          dictLookup ((states exSt).get ⟨i, hi⟩)
            (initial_conditions_padded_with_defaults exSt)) :=
  ⟨by rfl, integrate_initial_state_ordering exSt [0] 0 (by rfl) (by rfl) (by rfl)⟩

theorem ode_function_cache_spec_witness :
    exSt.evaluateOdeFunction = none ∧
    (∃ st1 call cnt1, integrate exSt [0] 0 = Except.ok (st1, call, cnt1) ∧
      call.compiledDuringCall = true ∧ call.generatorUsed = some defaultGenerator ∧
      st1.evaluateOdeFunction = some call.func ∧
      ∃ st2 call2 cnt2, integrate st1 [0] cnt1 = Except.ok (st2, call2, cnt2) ∧
        call2.compiledDuringCall = false ∧ call2.func = call.func ∧
        st2.evaluateOdeFunction = some call.func) :=
  ⟨rfl, (ode_function_cache_spec exSt [0] 0 (by rfl) (by rfl) (by rfl)).2.2 rfl⟩

theorem constant_symbols_exclude_time_symbol_witness :
    Kane_constant_symbols exEom = Except.ok [5, 6] ∧
    tSym ∉ ([5, 6] : List Sym) ∧
    SystemInit exEomNoT [] [] { id := 0, isCallable := true } [] =
      Except.error PyError.timeSymbolMissing :=
  ⟨by rfl,
   (constant_symbols_exclude_time_symbol exEom).1 [5, 6] (by decide) (by rfl),
   (constant_symbols_exclude_time_symbol exEomNoT).2.2.2 [] []
     { id := 0, isCallable := true } [] (by decide)⟩

theorem ode_solver_setter_requires_callable_witness :
    ode_solver_setter exSt { id := 11, isCallable := false } =
      (exSt, some PyError.notCallable) ∧
    ode_solver_setter exSt { id := 12, isCallable := true } =
      ({ exSt with odeSolver := { id := 12, isCallable := true } }, none) :=
  ⟨(ode_solver_setter_requires_callable exSt { id := 11, isCallable := false }).1 rfl,
   (ode_solver_setter_requires_callable exSt { id := 12, isCallable := true }).2.1 rfl⟩

end PydySystem
